import Mathlib

/-!
Shallow embedding of the C library `src/carbide/examples/c-binding/vendor/mathlib.c`
(header `mathlib.h`), together with proofs about the claims of its specification.

Modelling conventions:
* `int32_t` values are integers (`ℤ`); every C arithmetic operation that can
  overflow is followed by `wrap32`, the twos-complement reduction into
  `[-2^31, 2^31)`.  Signed overflow is undefined behaviour in C; the wrap is the
  usual concretization (what `-fwrapv` and common targets produce).  Likewise
  `int64_t` uses `wrap64`.  The C `/` on signed integers truncates towards zero,
  which is `Int.tdiv`.
* A nullable pointer argument is an `Option` (arrays, strings, structs) or a
  `Bool` flag (`resultNonNull`) for pure out-parameters.
* A fallible function `int f(..., T* result)` becomes a function returning
  `ℤ × Option T`: the error code, and `some v` exactly when the C code stores
  `v` through `result` (`none` means the out-parameter was left untouched).
* A C string is a `List Char` of its characters before the terminating NUL.
-/

/-- Error code `MATHLIB_OK` from mathlib.h. -/
def MATHLIB_OK : ℤ := 0

/-- Error code `MATHLIB_ERR_NULL` from mathlib.h. -/
def MATHLIB_ERR_NULL : ℤ := -1

/-- Error code `MATHLIB_ERR_RANGE` from mathlib.h. -/
def MATHLIB_ERR_RANGE : ℤ := -2

/-- Error code `MATHLIB_ERR_ZERO` from mathlib.h. -/
def MATHLIB_ERR_ZERO : ℤ := -3

/-- Twos-complement reduction of an integer into the `int32_t` range
`[-2^31, 2^31)`. -/
def wrap32 (z : ℤ) : ℤ := (z + 2^31) % 2^32 - 2^31

/-- Twos-complement reduction of an integer into the `int64_t` range
`[-2^63, 2^63)`. -/
def wrap64 (z : ℤ) : ℤ := (z + 2^63) % 2^64 - 2^63

/-- The value range of `int32_t`. -/
def isInt32 (z : ℤ) : Prop := -2^31 ≤ z ∧ z < 2^31

instance (z : ℤ) : Decidable (isInt32 z) := by unfold isInt32; infer_instance

/-- `mathlib_divide` (mathlib.c lines 20–29): null check, zero-divisor check,
then `*result = a / b` (C truncating division; `INT32_MIN / -1` overflows and
is modelled by `wrap32`). -/
def mathlib_divide (a b : ℤ) (resultNonNull : Bool) : ℤ × Option ℤ :=
  if resultNonNull = false then (MATHLIB_ERR_NULL, none)
  else if b = 0 then (MATHLIB_ERR_ZERO, none)
  else (MATHLIB_OK, some (wrap32 (a.tdiv b)))

/-- One iteration of the Newton loop body of `mathlib_sqrt`
(mathlib.c line 49): from the current `x`, the next value
`y = (x + n / x) / 2` computed in `int32_t` arithmetic (the sum is wrapped;
the division by 2 cannot overflow, the outer `wrap32` models the store into
the `int32_t` variable and is the identity there). -/
def sqrtStep (n x : ℤ) : ℤ := wrap32 ((wrap32 (x + Int.tdiv n x)).tdiv 2)

/-- The Newton iteration loop of `mathlib_sqrt` (mathlib.c lines 47–50).
The C loop is `while (y < x) { x = y; y = (x + n/x)/2; }` over the state
`(x, y)`; since each round sets `x` to the previous `y` and recomputes `y`
from that new `x`, the loop is the tail recursion on `x` below, entered at
the first `y`: `sqrtGo n x = if sqrtStep n x < x then sqrtGo n (sqrtStep n x)
else x`.  It terminates because `x` strictly decreases and stays in the
`int32_t` range. -/
def sqrtGo (n x : ℤ) : ℤ :=
  if _h : sqrtStep n x < x then sqrtGo n (sqrtStep n x) else x
termination_by (x + 2^31).toNat
decreasing_by
  simp only [sqrtStep, wrap32] at _h ⊢
  omega

/-- `mathlib_sqrt` (mathlib.c lines 31–53): null check, negative check,
`n == 0` shortcut, then the Newton iteration starting from `x = n`,
`y = (x + 1) / 2` (the increment `n + 1` is `int32_t` arithmetic, hence
wrapped: for `n = INT32_MAX` it overflows). -/
def mathlib_sqrt (n : ℤ) (resultNonNull : Bool) : ℤ × Option ℤ :=
  if resultNonNull = false then (MATHLIB_ERR_NULL, none)
  else if n < 0 then (MATHLIB_ERR_RANGE, none)
  else if n = 0 then (MATHLIB_OK, some 0)
  else
    let y := wrap32 ((wrap32 (n + 1)).tdiv 2)
    if y < n then (MATHLIB_OK, some (sqrtGo n y)) else (MATHLIB_OK, some n)

/-- The accumulation loop of `mathlib_sum_array` (mathlib.c lines 60–63):
`sum += arr[i]` over the elements, in `int64_t` arithmetic (each addition
wrapped at 64 bits). -/
def sumScan (acc : ℤ) (l : List ℤ) : ℤ :=
  l.foldl (fun s v => wrap64 (s + v)) acc

/-- `mathlib_sum_array` (mathlib.c lines 55–66): null checks, then a linear
scan accumulating into an `int64_t` sum starting from 0. -/
def mathlib_sum_array (arr : Option (List ℤ)) (resultNonNull : Bool) : ℤ × Option ℤ :=
  match arr with
  | none => (MATHLIB_ERR_NULL, none)
  | some l =>
    if resultNonNull = false then (MATHLIB_ERR_NULL, none)
    else (MATHLIB_OK, some (sumScan 0 l))

/-- The scan loop of `mathlib_find_max` (mathlib.c lines 76–81): starting
from the current maximum `a`, replace it only on strict `arr[i] > max`. -/
def maxScan (a : ℤ) (t : List ℤ) : ℤ :=
  t.foldl (fun m v => if m < v then v else m) a

/-- `mathlib_find_max` (mathlib.c lines 68–84): null checks, empty check, then
the scan initialized with the first element. -/
def mathlib_find_max (arr : Option (List ℤ)) (resultNonNull : Bool) : ℤ × Option ℤ :=
  match arr with
  | none => (MATHLIB_ERR_NULL, none)
  | some l =>
    if resultNonNull = false then (MATHLIB_ERR_NULL, none)
    else
      match l with
      | [] => (MATHLIB_ERR_RANGE, none)
      | a :: t => (MATHLIB_OK, some (maxScan a t))

/-- The C `strlen` scan: count characters until the terminating NUL (the end
of the modelled list). -/
def cstrlen (l : List Char) : ℕ :=
  match l with
  | [] => 0
  | _ :: t => 1 + cstrlen t

/-- `mathlib_strlen` (mathlib.c lines 86–91): `0` for a null pointer,
otherwise `strlen`. -/
def mathlib_strlen (str : Option (List Char)) : ℕ :=
  match str with
  | none => 0
  | some l => cstrlen l

/-- The character class accepted by C `isspace` in the default locale:
space, horizontal tab, line feed, vertical tab, form feed, carriage return. -/
def cIsSpace (c : Char) : Bool :=
  c = ' ' || c = '\t' || c = '\n' || c = '\x0b' || c = '\x0c' || c = '\r'

/-- Numeric value of a base-10 digit string (most significant digit first). -/
def digitsToNat (l : List Char) : ℕ :=
  l.foldl (fun a c => 10 * a + (c.toNat - '0'.toNat)) 0

/-- The observable outputs of a `strtol(str, &endptr, 10)` call:
the returned `long`, the suffix `endptr` points at, whether a conversion was
performed (`endptr != str`), and whether `errno` was set to `ERANGE`. -/
structure Strtol10Result where
  value : ℤ
  restChars : List Char
  converted : Bool
  erange : Bool

/-- Model of ISO C `strtol(str, &endptr, 10)` on an LP64 platform
(`long` is 64-bit), the libc routine `mathlib_parse_int` delegates to:
skip `isspace` characters, accept one optional plus or minus sign, then the
longest run of decimal digits.  If there are no digits, no conversion is
performed, `endptr` is reset to `str` and `0` is returned.  On overflow of
`long` the result is clamped to `LONG_MAX`/`LONG_MIN` and `errno` is set to
`ERANGE`. -/
def strtol10 (s : List Char) : Strtol10Result :=
  let t := s.dropWhile cIsSpace
  let sgn : ℤ := if t.head? = some '-' then -1 else 1
  let t2 := if t.head? = some '-' ∨ t.head? = some '+' then t.tail else t
  let ds := t2.takeWhile Char.isDigit
  let rest := t2.dropWhile Char.isDigit
  if ds = [] then
    { value := 0, restChars := s, converted := false, erange := false }
  else
    let v : ℤ := sgn * (digitsToNat ds : ℤ)
    if v < -(2^63) then
      { value := -(2^63), restChars := rest, converted := true, erange := true }
    else if v > 2^63 - 1 then
      { value := 2^63 - 1, restChars := rest, converted := true, erange := true }
    else
      { value := v, restChars := rest, converted := true, erange := false }

/-- `mathlib_parse_int` (mathlib.c lines 93–112): null checks, then
`strtol(str, &endptr, 10)` with `errno` cleared first; rejects when `errno`
is set (`ERANGE`), no conversion happened (`endptr == str`), or the number is
not followed by the terminating NUL (`*endptr != '\0'`, i.e. a non-empty
suffix remains); finally rejects values outside the `int32_t` range and
otherwise stores the value. -/
def mathlib_parse_int (str : Option (List Char)) (resultNonNull : Bool) : ℤ × Option ℤ :=
  match str with
  | none => (MATHLIB_ERR_NULL, none)
  | some s =>
    if resultNonNull = false then (MATHLIB_ERR_NULL, none)
    else
      let r := strtol10 s
      if r.erange = true ∨ r.converted = false ∨ r.restChars ≠ [] then
        (MATHLIB_ERR_RANGE, none)
      else if r.value < -(2^31) ∨ r.value > 2^31 - 1 then
        (MATHLIB_ERR_RANGE, none)
      else (MATHLIB_OK, some r.value)

/-- Struct `Point` from mathlib.h: a pair of `int32_t` coordinates. -/
structure Point where
  x : ℤ
  y : ℤ
deriving DecidableEq

/-- Struct `Rectangle` from mathlib.h: two corner `Point`s. -/
structure Rectangle where
  top_left : Point
  bottom_right : Point
deriving DecidableEq

/-- `mathlib_point_distance_squared` (mathlib.c lines 114–121): `-1` when a
pointer is absent, otherwise `dx*dx + dy*dy` in `int32_t` arithmetic (every
operation wrapped). -/
def mathlib_point_distance_squared (a b : Option Point) : ℤ :=
  match a, b with
  | none, _ => -1
  | _, none => -1
  | some pa, some pb =>
    let dx := wrap32 (pb.x - pa.x)
    let dy := wrap32 (pb.y - pa.y)
    wrap32 (wrap32 (dx * dx) + wrap32 (dy * dy))

/-- `mathlib_rectangle_area` (mathlib.c lines 123–132): `-1` when the pointer
is absent; otherwise compute the side deltas, negate the negative ones
(`int32_t` negation, wrapped: `-INT32_MIN` stays `INT32_MIN`), and return
their product in `int32_t` arithmetic. -/
def mathlib_rectangle_area (rect : Option Rectangle) : ℤ :=
  match rect with
  | none => -1
  | some r =>
    let width := wrap32 (r.bottom_right.x - r.top_left.x)
    let height := wrap32 (r.bottom_right.y - r.top_left.y)
    let width2 := if width < 0 then wrap32 (-width) else width
    let height2 := if height < 0 then wrap32 (-height) else height
    wrap32 (width2 * height2)

/-- Specification-side characterization used by the claim about
`mathlib_parse_int`: the text is (exactly) optional `isspace` whitespace, an
optional single sign, and a non-empty run of decimal digits with nothing
after them, whose signed value `v` fits in `int32_t`. -/
def int32TextSpec (s : List Char) (v : ℤ) : Prop :=
  ∃ ws sgn ds : List Char,
    s = ws ++ sgn ++ ds ∧
    (∀ c ∈ ws, cIsSpace c = true) ∧
    (sgn = [] ∨ sgn = ['+'] ∨ sgn = ['-']) ∧
    ds ≠ [] ∧
    (∀ c ∈ ds, c.isDigit = true) ∧
    v = (if sgn = ['-'] then -1 else 1) * (digitsToNat ds : ℤ) ∧
    -(2^31) ≤ v ∧ v ≤ 2^31 - 1

/-! ## Basic facts about the wrapping operations -/

theorem wrap32_eq_self {z : ℤ} (h1 : -2^31 ≤ z) (h2 : z < 2^31) : wrap32 z = z := by
  unfold wrap32; omega

theorem wrap64_eq_self {z : ℤ} (h1 : -2^63 ≤ z) (h2 : z < 2^63) : wrap64 z = z := by
  unfold wrap64; omega

theorem wrap32_bounds (z : ℤ) : -2^31 ≤ wrap32 z ∧ wrap32 z < 2^31 := by
  unfold wrap32
  constructor <;> omega

theorem wrap32_sub_dvd (z : ℤ) : (2^32 : ℤ) ∣ wrap32 z - z := by
  unfold wrap32; omega

theorem wrap32_congr {z1 z2 : ℤ} (h : (2^32 : ℤ) ∣ z1 - z2) : wrap32 z1 = wrap32 z2 := by
  unfold wrap32; omega

/-! ## Truncating division and remainder -/

theorem natAbs_tmod (a b : ℤ) : (a.tmod b).natAbs = a.natAbs % b.natAbs := by
  cases a with
  | ofNat m =>
    cases b with
    | ofNat n => rfl
    | negSucc n => rfl
  | negSucc m =>
    cases b with
    | ofNat n =>
      have h : Int.tmod (Int.negSucc m) (Int.ofNat n) = -(Int.ofNat ((m+1) % n)) := rfl
      rw [h, Int.natAbs_neg]
      rfl
    | negSucc n =>
      have h : Int.tmod (Int.negSucc m) (Int.negSucc n) = -(Int.ofNat ((m+1) % (n+1))) := rfl
      rw [h, Int.natAbs_neg]
      rfl

/-! ## C10: `mathlib_strlen` is total, 0 on null and the length otherwise -/

/-- C10: `mathlib_strlen` is total at the public boundary: a null pointer
yields 0 rather than a fault, and a non-null NUL-terminated string yields its
length. -/
theorem mathlib_strlen_total :
    mathlib_strlen none = 0 ∧ ∀ l : List Char, mathlib_strlen (some l) = l.length := by
  refine ⟨rfl, fun l => ?_⟩
  show cstrlen l = l.length
  induction l with
  | nil => rfl
  | cons c t ih =>
    simp only [cstrlen, ih, List.length_cons]
    omega

/-! ## C3: out-parameters are written exactly on success -/

/-- C3: for each fallible operation the out-parameter is written (`some`)
only when the returned code is `MATHLIB_OK`; on any failure code it is left
untouched (`none`); and `mathlib_divide a 0` with a non-null out-pointer
always returns `MATHLIB_ERR_ZERO` without writing. -/
theorem out_param_written_only_on_ok :
    (∀ (a b : ℤ) (p : Bool),
      (mathlib_divide a b p).2.isSome = true → (mathlib_divide a b p).1 = MATHLIB_OK) ∧
    (∀ (n : ℤ) (p : Bool),
      (mathlib_sqrt n p).2.isSome = true → (mathlib_sqrt n p).1 = MATHLIB_OK) ∧
    (∀ (arr : Option (List ℤ)) (p : Bool),
      (mathlib_sum_array arr p).2.isSome = true → (mathlib_sum_array arr p).1 = MATHLIB_OK) ∧
    (∀ (arr : Option (List ℤ)) (p : Bool),
      (mathlib_find_max arr p).2.isSome = true → (mathlib_find_max arr p).1 = MATHLIB_OK) ∧
    (∀ (s : Option (List Char)) (p : Bool),
      (mathlib_parse_int s p).2.isSome = true → (mathlib_parse_int s p).1 = MATHLIB_OK) ∧
    (∀ a : ℤ, mathlib_divide a 0 true = (MATHLIB_ERR_ZERO, none)) := by
  refine ⟨?_, ?_, ?_, ?_, ?_, ?_⟩
  · intro a b p h
    unfold mathlib_divide at h ⊢
    split_ifs at h ⊢ <;> simp_all
  · intro n p h
    unfold mathlib_sqrt at h ⊢
    split_ifs at h ⊢ <;> try simp_all
    split <;> rfl
  · intro arr p h
    unfold mathlib_sum_array at h ⊢
    cases arr with
    | none => simp_all
    | some l => split_ifs at h ⊢ <;> simp_all
  · intro arr p h
    unfold mathlib_find_max at h ⊢
    cases arr with
    | none => simp_all
    | some l =>
      cases l with
      | nil => split_ifs at h ⊢ <;> simp_all
      | cons a t => split_ifs at h ⊢ <;> simp_all
  · intro s p h
    unfold mathlib_parse_int at h ⊢
    cases s with
    | none => simp_all
    | some l =>
      split_ifs at h ⊢ <;> try simp_all
      split at h <;> first | (split at h <;> simp_all) | simp_all
      all_goals rw [if_neg (by omega)]
  · intro a
    unfold mathlib_divide
    norm_num

/-- Witness for C3 at a concrete input: dividing by zero reports
`MATHLIB_ERR_ZERO` and does not write the out-parameter. -/
theorem out_param_written_only_on_ok_witness :
    mathlib_divide 7 0 true = (MATHLIB_ERR_ZERO, none) :=
  out_param_written_only_on_ok.2.2.2.2.2 7

/-! ## C5: `mathlib_find_max` -/

theorem maxScan_mem : ∀ (t : List ℤ) (a : ℤ), maxScan a t ∈ a :: t := by
  intro t
  induction t with
  | nil => intro a; simp [maxScan]
  | cons b t ih =>
    intro a
    have h := ih (if a < b then b else a)
    simp only [maxScan, List.foldl_cons] at h ⊢
    by_cases hab : a < b <;> simp [hab] at h ⊢ <;> tauto

theorem maxScan_le : ∀ (t : List ℤ) (a : ℤ), a ≤ maxScan a t ∧ ∀ v ∈ t, v ≤ maxScan a t := by
  intro t
  induction t with
  | nil => intro a; simp [maxScan]
  | cons b t ih =>
    intro a
    have h := ih (if a < b then b else a)
    simp only [maxScan, List.foldl_cons] at h ⊢
    constructor
    · rcases h.1 with h1
      by_cases hab : a < b <;> simp [hab] at h1 ⊢ <;> omega
    · intro v hv
      rcases List.mem_cons.mp hv with hvb | hvt
      · subst hvb
        rcases h.1 with h1
        by_cases hab : a < v <;> simp [hab] at h1 ⊢ <;> omega
      · exact h.2 v hvt

/-- C5: `mathlib_find_max` with non-null pointers returns `MATHLIB_ERR_RANGE`
exactly on the empty array, and on a non-empty array returns `MATHLIB_OK` and
writes a maximum element (an element of the array that every element is at
most). -/
theorem mathlib_find_max_spec :
    ∀ l : List ℤ,
      (l = [] → mathlib_find_max (some l) true = (MATHLIB_ERR_RANGE, none)) ∧
      (l ≠ [] → ∃ m, mathlib_find_max (some l) true = (MATHLIB_OK, some m) ∧
        m ∈ l ∧ ∀ v ∈ l, v ≤ m) := by
  intro l
  constructor
  · rintro rfl; rfl
  · intro hne
    cases l with
    | nil => exact absurd rfl hne
    | cons a t =>
      refine ⟨maxScan a t, rfl, maxScan_mem t a, ?_⟩
      intro v hv
      rcases List.mem_cons.mp hv with rfl | hvt
      · exact (maxScan_le t v).1
      · exact (maxScan_le t a).2 v hvt

/-- Witness for C5 at a concrete input. -/
theorem mathlib_find_max_spec_witness :
    mathlib_find_max (some [5]) true = (MATHLIB_OK, some 5) := by
  obtain ⟨m, hm, hmem, -⟩ := (mathlib_find_max_spec [5]).2 (by simp)
  have : m = 5 := by simpa using hmem
  rw [this] at hm
  exact hm

/-! ## C8: `mathlib_sum_array` -/

theorem sumScan_eq_sum :
    ∀ (l : List ℤ) (acc : ℤ), (∀ v ∈ l, isInt32 v) →
      -(2^63) + 2^31 * l.length ≤ acc → acc ≤ 2^63 - 1 - 2^31 * l.length →
      sumScan acc l = acc + l.sum := by
  intro l
  induction l with
  | nil => intro acc _ _ _; simp [sumScan]
  | cons v t ih =>
    intro acc hall hlo hhi
    have hv : isInt32 v := hall v (List.mem_cons_self v t)
    rcases hv with ⟨hv1, hv2⟩
    simp only [List.length_cons] at hlo hhi
    have hcast : ((t.length + 1 : ℕ) : ℤ) = (t.length : ℤ) + 1 := by push_cast; ring
    rw [hcast] at hlo hhi
    have hw : wrap64 (acc + v) = acc + v := by
      apply wrap64_eq_self <;> nlinarith [hlo, hhi, hv1, hv2]
    simp only [sumScan, List.foldl_cons] at ih ⊢
    rw [hw, ih (acc + v) (fun w hw => hall w (List.mem_cons_of_mem v hw))
      (by nlinarith) (by nlinarith)]
    simp [List.sum_cons]
    ring

/-- C8: `mathlib_sum_array` with non-null pointers returns `MATHLIB_OK` and
writes the exact mathematical sum for every array of `int32_t` values whose
length is below `2^32` (the 64-bit accumulator never overflows there). -/
theorem mathlib_sum_array_spec :
    ∀ l : List ℤ, (∀ v ∈ l, isInt32 v) → (l.length : ℤ) < 2^32 →
      mathlib_sum_array (some l) true = (MATHLIB_OK, some l.sum) := by
  intro l hall hlen
  have hlen0 : (0 : ℤ) ≤ (l.length : ℤ) := Int.natCast_nonneg _
  have h := sumScan_eq_sum l 0 hall (by nlinarith) (by nlinarith)
  simp only [mathlib_sum_array]
  rw [if_neg (by simp), h]
  norm_num

/-- Witness for C8 at the concrete example from the specification:
`sumArray([1,2,3,4],4)` returns `MATHLIB_OK` with sum 10. -/
theorem mathlib_sum_array_spec_witness :
    mathlib_sum_array (some [1, 2, 3, 4]) true = (MATHLIB_OK, some 10) := by
  have h := mathlib_sum_array_spec [1, 2, 3, 4] (by decide) (by norm_num)
  simpa using h

/-! ## C2: `mathlib_divide` -/

/-- C2 (amended): for `int32_t` inputs with `b ≠ 0` and excluding the single
overflowing pair `a = INT32_MIN, b = -1`, `mathlib_divide` returns
`MATHLIB_OK` and writes the truncating quotient `q = a tdiv b`, which
satisfies `a = b * q + r` with `|r| < |b|` for the truncating remainder. -/
theorem mathlib_divide_spec :
    ∀ a b : ℤ, isInt32 a → isInt32 b → b ≠ 0 → ¬(a = -(2^31) ∧ b = -1) →
      mathlib_divide a b true = (MATHLIB_OK, some (a.tdiv b)) ∧
      a = b * a.tdiv b + a.tmod b ∧ |a.tmod b| < |b| := by
  intro a b ha hb hb0 hmin
  rcases ha with ⟨ha1, ha2⟩
  rcases hb with ⟨hb1, hb2⟩
  have hbabs : 0 < b.natAbs := Int.natAbs_pos.mpr hb0
  have habs_a : a.natAbs ≤ 2^31 := by omega
  have hrange : -(2^31) ≤ a.tdiv b ∧ a.tdiv b < 2^31 := by
    rcases Nat.lt_or_ge b.natAbs 2 with hlt | hge
    · -- natAbs b = 1, so b = 1 or b = -1
      have hbor : b = 1 ∨ b = -1 := by
        rcases Int.natAbs_eq b with h | h <;> omega
      rcases hbor with rfl | rfl
      · rw [Int.tdiv_one]; omega
      · have hane : a ≠ -(2^31) := fun h => hmin ⟨h, rfl⟩
        have hq : (a.tdiv (-1)).natAbs = a.natAbs / (-1 : ℤ).natAbs :=
          Int.natAbs_tdiv a (-1)
        simp only [Int.natAbs_neg, Int.natAbs_one, Nat.div_one] at hq
        omega
    · -- |b| ≥ 2, so the quotient is at most 2^30 in magnitude
      have hq : (a.tdiv b).natAbs = a.natAbs / b.natAbs := Int.natAbs_tdiv a b
      have h1 : a.natAbs / b.natAbs ≤ a.natAbs / 2 :=
        Nat.div_le_div_left hge (by omega)
      have h2 : a.natAbs / 2 ≤ 2^30 := by omega
      omega
  have hwrap : wrap32 (a.tdiv b) = a.tdiv b := by
    apply wrap32_eq_self <;> omega
  refine ⟨?_, (Int.tdiv_add_tmod a b).symm, ?_⟩
  · unfold mathlib_divide
    rw [if_neg (by simp), if_neg hb0, hwrap]
  · rw [Int.abs_eq_natAbs, Int.abs_eq_natAbs]
    have := natAbs_tmod a b
    have := Nat.mod_lt a.natAbs hbabs
    omega

/-- Witness for C2 at a concrete input: `-7 / 2` truncates to `-3` with
remainder `-1`. -/
theorem mathlib_divide_spec_witness :
    mathlib_divide (-7) 2 true = (MATHLIB_OK, some ((-7 : ℤ).tdiv 2)) ∧
    (-7 : ℤ) = 2 * (-7 : ℤ).tdiv 2 + (-7 : ℤ).tmod 2 ∧
    |(-7 : ℤ).tmod 2| < |(2 : ℤ)| :=
  mathlib_divide_spec (-7) 2 (by decide) (by decide) (by decide) (by decide)

/-- Counterexample for C2 as stated: at `a = INT32_MIN`, `b = -1` the code
returns `MATHLIB_OK` but the written value is the wrapped `INT32_MIN`, not
the truncating quotient `2^31`, and no remainder bound holds for it. -/
theorem mathlib_divide_min_cex :
    mathlib_divide (-(2^31)) (-1) true = (MATHLIB_OK, some (-(2^31))) ∧
    (-(2^31) : ℤ) ≠ Int.tdiv (-(2^31)) (-1) ∧
    ¬ |(-(2^31) : ℤ) - (-1) * (-(2^31))| < |(-1 : ℤ)| := by
  refine ⟨?_, by decide, by decide⟩
  decide

/-! ## C1: `mathlib_sqrt` -/

theorem sqrtStep_facts (n x : ℤ) (hn1 : 1 ≤ n) (hn2 : n ≤ 2^31 - 2)
    (hx1 : 1 ≤ x) (hx2 : 2 * x ≤ n + 1) :
    1 ≤ sqrtStep n x ∧ 2 * sqrtStep n x ≤ n + 1 ∧
    n < (sqrtStep n x + 1) * (sqrtStep n x + 1) ∧
    (x ≤ sqrtStep n x → x * x ≤ n) := by
  have hx0 : (0 : ℤ) < x := by omega
  have hxne : x ≠ 0 := by omega
  have hqeq : Int.tdiv n x = n / x := Int.tdiv_eq_ediv (by omega) (by omega)
  have hdm := Int.ediv_add_emod n x
  have hm1 := Int.emod_nonneg n hxne
  have hm2 := Int.emod_lt_of_pos n hx0
  set q := n / x with hq
  have hq0 : 0 ≤ q := Int.ediv_nonneg (by omega) (by omega)
  have hqx1 : x * q ≤ n := by linarith
  have hqx2 : n < x * q + x := by linarith
  have hinner_ub : x + q ≤ n + 1 := by
    by_cases hx1' : x = 1
    · have hq1 : q = n := by rw [hq, hx1']; exact Int.ediv_one n
      omega
    · have hx2' : (2 : ℤ) ≤ x := by omega
      have h2q : 2 * q ≤ x * q := mul_le_mul_of_nonneg_right hx2' hq0
      have h2qn : 2 * q ≤ n := le_trans h2q hqx1
      omega
  have hinner_lb : 2 ≤ x + q := by
    by_cases hx1' : x = 1
    · have hq1 : q = n := by rw [hq, hx1']; exact Int.ediv_one n
      omega
    · omega
  have hw1 : wrap32 (x + Int.tdiv n x) = x + q := by
    rw [hqeq]
    exact wrap32_eq_self (by omega) (by omega)
  set y := (x + q).tdiv 2 with hy
  have hyeq : y = (x + q) / 2 := Int.tdiv_eq_ediv (by omega) (by omega)
  have hy2 : 2 * y ≤ x + q ∧ x + q ≤ 2 * y + 1 := by
    rw [hyeq]; omega
  have hy1 : 1 ≤ y := by omega
  have hstep : sqrtStep n x = y := by
    show wrap32 ((wrap32 (x + Int.tdiv n x)).tdiv 2) = y
    rw [hw1, ← hy]
    exact wrap32_eq_self (by omega) (by omega)
  refine ⟨by omega, by omega, ?_, ?_⟩
  · rw [hstep]
    have hkey : x * q ≤ x * (2 * y + 1 - x) :=
      mul_le_mul_of_nonneg_left (by omega) (by omega)
    have hamgm : 2 * x * (y + 1) ≤ x^2 + (y + 1)^2 := two_mul_le_add_sq x (y + 1)
    nlinarith [hqx2, hkey, hamgm]
  · intro hxy
    rw [hstep] at hxy
    have hxq : x ≤ q := by omega
    have hxx : x * x ≤ x * q := mul_le_mul_of_nonneg_left hxq (by omega)
    linarith

theorem sqrtGo_correct (n : ℤ) (hn1 : 1 ≤ n) (hn2 : n ≤ 2^31 - 2) :
    ∀ (k : ℕ) (x : ℤ), x.toNat ≤ k → 1 ≤ x → 2 * x ≤ n + 1 →
      n < (x + 1) * (x + 1) →
      sqrtGo n x * sqrtGo n x ≤ n ∧ n < (sqrtGo n x + 1) * (sqrtGo n x + 1) := by
  intro k
  induction k with
  | zero => intro x hk hx1 _ _; omega
  | succ k ih =>
    intro x hk hx1 hx2 hx3
    obtain ⟨h1, h2, h3, h4⟩ := sqrtStep_facts n x hn1 hn2 hx1 hx2
    rw [sqrtGo]
    by_cases hlt : sqrtStep n x < x
    · rw [dif_pos hlt]
      exact ih (sqrtStep n x) (by omega) h1 h2 h3
    · rw [dif_neg hlt]
      exact ⟨h4 (by omega), hx3⟩

theorem mathlib_sqrt_pos_eq (n : ℤ) (h1 : 1 ≤ n) (h2 : n ≤ 2^31 - 2) :
    mathlib_sqrt n true =
      (MATHLIB_OK, some (if (n + 1) / 2 < n then sqrtGo n ((n + 1) / 2) else n)) := by
  unfold mathlib_sqrt
  rw [if_neg (by simp), if_neg (by omega), if_neg (by omega)]
  have e1 : wrap32 (n + 1) = n + 1 := wrap32_eq_self (by omega) (by omega)
  have e2 : (n + 1).tdiv 2 = (n + 1) / 2 := Int.tdiv_eq_ediv (by omega) (by omega)
  have e3 : wrap32 ((n + 1) / 2) = (n + 1) / 2 := wrap32_eq_self (by omega) (by omega)
  simp only [e1, e2, e3]
  by_cases hy : (n + 1) / 2 < n <;> simp [hy]

/-- C1 (amended): with a non-null output pointer, `mathlib_sqrt` returns
`MATHLIB_ERR_RANGE` for every negative `int32_t` input, and for every
`0 ≤ n ≤ 2^31 - 2` (all non-negative `int32_t` values except `INT32_MAX`,
where the initial `(n+1)/2` overflows) it returns `MATHLIB_OK` and writes
`r` with `r*r ≤ n < (r+1)*(r+1)`, computed by the Newton iteration of the
code. -/
theorem mathlib_sqrt_spec (n : ℤ) (hn : isInt32 n) :
    (n < 0 → mathlib_sqrt n true = (MATHLIB_ERR_RANGE, none)) ∧
    (0 ≤ n → n ≤ 2^31 - 2 →
      (mathlib_sqrt n true).1 = MATHLIB_OK ∧
      ∃ r, (mathlib_sqrt n true).2 = some r ∧ r * r ≤ n ∧ n < (r + 1) * (r + 1)) := by
  constructor
  · intro hneg
    unfold mathlib_sqrt
    rw [if_neg (by simp), if_pos hneg]
  · intro h0 h2
    by_cases hz : n = 0
    · subst hz
      exact ⟨rfl, 0, rfl, by norm_num⟩
    · have h1 : 1 ≤ n := by omega
      rw [mathlib_sqrt_pos_eq n h1 h2]
      by_cases hy : (n + 1) / 2 < n
      · rw [if_pos hy]
        refine ⟨rfl, sqrtGo n ((n + 1) / 2), rfl, ?_⟩
        apply sqrtGo_correct n h1 h2 ((n + 1) / 2).toNat ((n + 1) / 2) le_rfl
        · omega
        · omega
        · have hge : n ≤ 2 * ((n + 1) / 2) := by omega
          nlinarith [sq_nonneg ((n + 1) / 2)]
      · rw [if_neg hy]
        have hn1 : n = 1 := by omega
        subst hn1
        exact ⟨rfl, 1, rfl, by norm_num⟩

/-- Witness for C1 at the concrete input 10: the theorem yields a written
root `r` with `r*r ≤ 10 < (r+1)*(r+1)`, which pins `r = 3`. -/
theorem mathlib_sqrt_spec_witness :
    (mathlib_sqrt 10 true).1 = MATHLIB_OK ∧ (mathlib_sqrt 10 true).2 = some 3 := by
  obtain ⟨-, h⟩ := mathlib_sqrt_spec 10 (by decide)
  obtain ⟨hc, r, hr, hb1, hb2⟩ := h (by norm_num) (by norm_num)
  have hub : r ≤ 3 := by nlinarith [sq_nonneg (r - 3)]
  have hlb : -3 ≤ r := by nlinarith [sq_nonneg (r + 3)]
  have h3 : r = 3 := by interval_cases r <;> omega
  subst h3
  exact ⟨hc, hr⟩

/-- Counterexample for C1 as stated: at `n = INT32_MAX = 2147483647` the
increment `n + 1` overflows, the iteration stops at `-2^30`, and the code
returns `MATHLIB_OK` with a written value that is not the integer square
root. -/
theorem mathlib_sqrt_overflow_cex :
    (mathlib_sqrt 2147483647 true).1 = MATHLIB_OK ∧
    (mathlib_sqrt 2147483647 true).2 = some (-1073741824) ∧
    ¬ ((-1073741824 : ℤ) * -1073741824 ≤ 2147483647 ∧
       (2147483647 : ℤ) < (-1073741824 + 1) * (-1073741824 + 1)) := by
  have hgo : sqrtGo 2147483647 (-1073741824) = -1073741824 := by
    have s1 : sqrtStep 2147483647 (-1073741824) = -536870912 := by decide
    rw [sqrtGo, s1, dif_neg (by norm_num)]
  have hs : mathlib_sqrt 2147483647 true = (MATHLIB_OK, some (-1073741824)) := by
    have e1 : wrap32 ((wrap32 (2147483647 + 1)).tdiv 2) = -1073741824 := by decide
    unfold mathlib_sqrt
    rw [if_neg (by simp), if_neg (by norm_num), if_neg (by norm_num)]
    simp only [e1]
    rw [if_pos (by norm_num), hgo]
  refine ⟨by rw [hs], by rw [hs], by decide⟩

/-! ## C6: `mathlib_point_distance_squared` -/

theorem wrap32_sub_dvd_four (z : ℤ) : (4 : ℤ) ∣ wrap32 z - z :=
  dvd_trans ⟨2^30, by norm_num⟩ (wrap32_sub_dvd z)

theorem sq_emod_four (z : ℤ) : z * z % 4 = 0 ∨ z * z % 4 = 1 := by
  have h := Int.mul_emod z z 4
  have h4 : z % 4 = 0 ∨ z % 4 = 1 ∨ z % 4 = 2 ∨ z % 4 = 3 := by omega
  rcases h4 with h' | h' | h' | h' <;> rw [h'] at h <;> norm_num at h <;> omega

/-- C6 (amended): `mathlib_point_distance_squared` returns `-1` whenever a
pointer is absent; for non-null points it never returns `-1` (a wrapped sum
of two squares is never `≡ 3 (mod 4)`), so the sentinel stays
distinguishable; and whenever the coordinate differences and the squared
distance fit in `int32_t` it returns the exact non-negative squared
Euclidean distance. -/
theorem mathlib_point_distance_squared_spec :
    (∀ oa ob : Option Point, (oa = none ∨ ob = none) →
      mathlib_point_distance_squared oa ob = -1) ∧
    (∀ pa pb : Point, mathlib_point_distance_squared (some pa) (some pb) ≠ -1) ∧
    (∀ pa pb : Point,
      -(2^31) ≤ pb.x - pa.x → pb.x - pa.x < 2^31 →
      -(2^31) ≤ pb.y - pa.y → pb.y - pa.y < 2^31 →
      (pb.x - pa.x) * (pb.x - pa.x) + (pb.y - pa.y) * (pb.y - pa.y) ≤ 2^31 - 1 →
      mathlib_point_distance_squared (some pa) (some pb) =
        (pb.x - pa.x) * (pb.x - pa.x) + (pb.y - pa.y) * (pb.y - pa.y) ∧
      0 ≤ mathlib_point_distance_squared (some pa) (some pb)) := by
  refine ⟨?_, ?_, ?_⟩
  · rintro oa ob (rfl | rfl)
    · cases ob <;> rfl
    · cases oa <;> rfl
  · intro pa pb hc
    simp only [mathlib_point_distance_squared] at hc
    set dx := wrap32 (pb.x - pa.x)
    set dy := wrap32 (pb.y - pa.y)
    have d1 := wrap32_sub_dvd_four (dx * dx)
    have d2 := wrap32_sub_dvd_four (dy * dy)
    have d3 := wrap32_sub_dvd_four (wrap32 (dx * dx) + wrap32 (dy * dy))
    have s1 := sq_emod_four dx
    have s2 := sq_emod_four dy
    omega
  · intro pa pb h1 h2 h3 h4 h5
    have hx0 : 0 ≤ (pb.x - pa.x) * (pb.x - pa.x) := mul_self_nonneg _
    have hy0 : 0 ≤ (pb.y - pa.y) * (pb.y - pa.y) := mul_self_nonneg _
    have heq : mathlib_point_distance_squared (some pa) (some pb) =
        (pb.x - pa.x) * (pb.x - pa.x) + (pb.y - pa.y) * (pb.y - pa.y) := by
      simp only [mathlib_point_distance_squared]
      rw [wrap32_eq_self h1 h2, wrap32_eq_self h3 h4]
      have w1 : wrap32 ((pb.x - pa.x) * (pb.x - pa.x)) =
          (pb.x - pa.x) * (pb.x - pa.x) := wrap32_eq_self (by omega) (by omega)
      have w2 : wrap32 ((pb.y - pa.y) * (pb.y - pa.y)) =
          (pb.y - pa.y) * (pb.y - pa.y) := wrap32_eq_self (by omega) (by omega)
      rw [w1, w2]
      exact wrap32_eq_self (by omega) (by omega)
    exact ⟨heq, by rw [heq]; omega⟩

/-- Witness for C6 at a concrete input: the squared distance from (0,0) to
(3,4) is 25 and non-negative. -/
theorem mathlib_point_distance_squared_spec_witness :
    mathlib_point_distance_squared (some ⟨0, 0⟩) (some ⟨3, 4⟩) =
      ((3 : ℤ) - 0) * ((3 : ℤ) - 0) + ((4 : ℤ) - 0) * ((4 : ℤ) - 0) ∧
    0 ≤ mathlib_point_distance_squared (some ⟨0, 0⟩) (some ⟨3, 4⟩) :=
  mathlib_point_distance_squared_spec.2.2 ⟨0, 0⟩ ⟨3, 4⟩
    (by decide) (by decide) (by decide) (by decide) (by decide)

/-- Counterexample for C6 as stated: with valid `int32_t` coordinates the
squared distance from (0,0) to (46341,0) overflows `int32_t`; the code
returns a negative wrapped value, not the squared Euclidean distance. -/
theorem point_distance_overflow_cex :
    mathlib_point_distance_squared (some ⟨0, 0⟩) (some ⟨46341, 0⟩) = -2147479015 ∧
    mathlib_point_distance_squared (some ⟨0, 0⟩) (some ⟨46341, 0⟩) < 0 ∧
    (-2147479015 : ℤ) ≠ ((46341 : ℤ) - 0) * ((46341 : ℤ) - 0) + ((0 : ℤ) - 0) * ((0 : ℤ) - 0) := by
  exact ⟨by decide, by decide, by decide⟩

/-! ## C7: `mathlib_rectangle_area` -/

theorem wrap32_neg_wrap (d : ℤ) : wrap32 (-d) = wrap32 (-(wrap32 d)) := by
  apply wrap32_congr
  have h := wrap32_sub_dvd d
  omega

theorem abs_branch_eq (d : ℤ) :
    (if wrap32 (-d) < 0 then wrap32 (-(wrap32 (-d))) else wrap32 (-d)) =
    (if wrap32 d < 0 then wrap32 (-(wrap32 d)) else wrap32 d) := by
  have hb := wrap32_bounds d
  have hneg : wrap32 (-d) = wrap32 (-(wrap32 d)) := wrap32_neg_wrap d
  set w := wrap32 d with hw
  rcases lt_trichotomy w 0 with hlt | heq | hgt
  · by_cases hmin : w = -(2^31)
    · rw [hneg, hmin]
      decide
    · have h1 : wrap32 (-w) = -w := wrap32_eq_self (by omega) (by omega)
      rw [hneg, h1, if_neg (by omega), if_pos hlt]
  · rw [hneg, heq]
    norm_num [show wrap32 (0 : ℤ) = 0 from by decide]
  · have h1 : wrap32 (-w) = -w := wrap32_eq_self (by omega) (by omega)
    rw [hneg, h1, if_pos (by omega), if_neg (by omega), neg_neg]
    exact wrap32_eq_self (by omega) (by omega)

/-- C7 (amended): `mathlib_rectangle_area` returns `-1` for an absent
pointer; swapping the two corners always yields the same result as the
canonical ordering (for all `int32_t` corner values, wrapping included); and
whenever the side deltas and the product of their absolute values fit in
`int32_t` the result is absolute width times absolute height. -/
theorem mathlib_rectangle_area_spec :
    (mathlib_rectangle_area none = -1) ∧
    (∀ r : Rectangle,
      mathlib_rectangle_area (some ⟨r.bottom_right, r.top_left⟩) =
        mathlib_rectangle_area (some r)) ∧
    (∀ r : Rectangle,
      -(2^31) < r.bottom_right.x - r.top_left.x → r.bottom_right.x - r.top_left.x < 2^31 →
      -(2^31) < r.bottom_right.y - r.top_left.y → r.bottom_right.y - r.top_left.y < 2^31 →
      |r.bottom_right.x - r.top_left.x| * |r.bottom_right.y - r.top_left.y| ≤ 2^31 - 1 →
      mathlib_rectangle_area (some r) =
        |r.bottom_right.x - r.top_left.x| * |r.bottom_right.y - r.top_left.y|) := by
  refine ⟨rfl, ?_, ?_⟩
  · intro r
    simp only [mathlib_rectangle_area]
    have hx : r.top_left.x - r.bottom_right.x = -(r.bottom_right.x - r.top_left.x) := by
      ring
    have hy : r.top_left.y - r.bottom_right.y = -(r.bottom_right.y - r.top_left.y) := by
      ring
    rw [hx, hy, abs_branch_eq, abs_branch_eq]
  · intro r h1 h2 h3 h4 h5
    simp only [mathlib_rectangle_area]
    set dx := r.bottom_right.x - r.top_left.x with hdx
    set dy := r.bottom_right.y - r.top_left.y with hdy
    have e1 : wrap32 dx = dx := wrap32_eq_self (by omega) (by omega)
    have e2 : wrap32 dy = dy := wrap32_eq_self (by omega) (by omega)
    rw [e1, e2]
    have w1 : (if dx < 0 then wrap32 (-dx) else dx) = |dx| := by
      by_cases h : dx < 0
      · rw [if_pos h, wrap32_eq_self (by omega) (by omega), abs_of_neg h]
      · rw [if_neg h, abs_of_nonneg (by omega)]
    have w2 : (if dy < 0 then wrap32 (-dy) else dy) = |dy| := by
      by_cases h : dy < 0
      · rw [if_pos h, wrap32_eq_self (by omega) (by omega), abs_of_neg h]
      · rw [if_neg h, abs_of_nonneg (by omega)]
    rw [w1, w2]
    have hp : 0 ≤ |dx| * |dy| := mul_nonneg (abs_nonneg _) (abs_nonneg _)
    exact wrap32_eq_self (le_trans (by norm_num) hp) (by linarith)

/-- Witness for C7 at a concrete input: an inverted-corner rectangle with
corners (5,1) and (2,7) has area `|2-5| * |7-1| = 18`. -/
theorem mathlib_rectangle_area_spec_witness :
    mathlib_rectangle_area (some ⟨⟨5, 1⟩, ⟨2, 7⟩⟩) = |(2 : ℤ) - 5| * |(7 : ℤ) - 1| :=
  mathlib_rectangle_area_spec.2.2 ⟨⟨5, 1⟩, ⟨2, 7⟩⟩
    (by decide) (by decide) (by decide) (by decide) (by decide)

/-- Counterexample for C7 as stated: with valid `int32_t` corners (0,0) and
(2147483647,2) the product `2147483647 * 2` wraps; the code returns `-2`,
not absolute width times absolute height. -/
theorem rectangle_area_overflow_cex :
    mathlib_rectangle_area (some ⟨⟨0, 0⟩, ⟨2147483647, 2⟩⟩) = -2 ∧
    (-2 : ℤ) ≠ |(2147483647 : ℤ) - 0| * |(2 : ℤ) - 0| := by
  exact ⟨by decide, by decide⟩

/-! ## C4 and C9: `mathlib_parse_int` -/

theorem isDigit_not_space {c : Char} (h : c.isDigit = true) : cIsSpace c = false := by
  cases hs : cIsSpace c
  · rfl
  · exfalso
    simp only [cIsSpace, Bool.or_eq_true, decide_eq_true_eq] at hs
    rcases hs with ((((rfl | rfl) | rfl) | rfl) | rfl) | rfl <;> exact absurd h (by decide)

theorem isDigit_not_sign {c : Char} (h : c.isDigit = true) : c ≠ '-' ∧ c ≠ '+' := by
  constructor <;> rintro rfl <;> exact absurd h (by decide)

theorem takeWhile_dropWhile_split (p : Char → Bool) :
    ∀ (ws rest : List Char), (∀ c ∈ ws, p c = true) →
      (∀ c, rest.head? = some c → p c = false) →
      (ws ++ rest).takeWhile p = ws ∧ (ws ++ rest).dropWhile p = rest := by
  intro ws
  induction ws with
  | nil =>
    intro rest _ h2
    cases rest with
    | nil => simp
    | cons c r =>
      have hc := h2 c rfl
      simp [List.takeWhile_cons, List.dropWhile_cons, hc]
  | cons a ws ih =>
    intro rest h1 h2
    have ha : p a = true := h1 a (List.mem_cons_self a ws)
    have hih := ih rest (fun c hc => h1 c (List.mem_cons_of_mem a hc)) h2
    simp [List.takeWhile_cons, List.dropWhile_cons, ha, hih.1, hih.2]

theorem head_dropWhile_not (p : Char → Bool) :
    ∀ (l : List Char) (c : Char), (l.dropWhile p).head? = some c → p c = false := by
  intro l
  induction l with
  | nil => intro c hc; simp at hc
  | cons a t ih =>
    intro c hc
    rw [List.dropWhile_cons] at hc
    by_cases ha : p a = true
    · rw [if_pos ha] at hc
      exact ih c hc
    · rw [if_neg ha] at hc
      simp only [List.head?_cons, Option.some.injEq] at hc
      subst hc
      simpa using ha

theorem strtol10_no_digits (s : List Char)
    (h : ((if (s.dropWhile cIsSpace).head? = some '-' ∨ (s.dropWhile cIsSpace).head? = some '+'
        then (s.dropWhile cIsSpace).tail else s.dropWhile cIsSpace)).takeWhile Char.isDigit = []) :
    strtol10 s = ⟨0, s, false, false⟩ := by
  simp only [strtol10]
  rw [if_pos h]

theorem strtol10_of_split (ws sgn ds rest : List Char)
    (hws : ∀ c ∈ ws, cIsSpace c = true)
    (hsgn : sgn = [] ∨ sgn = ['+'] ∨ sgn = ['-'])
    (hds : ds ≠ [])
    (hdig : ∀ c ∈ ds, c.isDigit = true)
    (hrest : ∀ c, rest.head? = some c → c.isDigit = false) :
    strtol10 (ws ++ sgn ++ (ds ++ rest)) =
      (if (if sgn = ['-'] then (-1 : ℤ) else 1) * (digitsToNat ds : ℤ) < -(2^63) then
        ⟨-(2^63), rest, true, true⟩
      else if (if sgn = ['-'] then (-1 : ℤ) else 1) * (digitsToNat ds : ℤ) > 2^63 - 1 then
        ⟨2^63 - 1, rest, true, true⟩
      else ⟨(if sgn = ['-'] then (-1 : ℤ) else 1) * (digitsToNat ds : ℤ), rest, true, false⟩) := by
  obtain ⟨d, ds', rfl⟩ : ∃ d ds', ds = d :: ds' := by
    cases ds with
    | nil => exact absurd rfl hds
    | cons d ds' => exact ⟨d, ds', rfl⟩
  have hd : d.isDigit = true := hdig d (List.mem_cons_self d ds')
  have hd1 : d ≠ '-' := (isDigit_not_sign hd).1
  have hd2 : d ≠ '+' := (isDigit_not_sign hd).2
  have hhead : ∀ c, (sgn ++ (d :: ds' ++ rest)).head? = some c → cIsSpace c = false := by
    intro c hc
    rcases hsgn with rfl | rfl | rfl
    · simp only [List.nil_append, List.cons_append, List.head?_cons,
        Option.some.injEq] at hc
      subst hc
      exact isDigit_not_space hd
    · simp only [List.cons_append, List.head?_cons, Option.some.injEq] at hc
      subst hc
      decide
    · simp only [List.cons_append, List.head?_cons, Option.some.injEq] at hc
      subst hc
      decide
  have hdrop := (takeWhile_dropWhile_split cIsSpace ws (sgn ++ (d :: ds' ++ rest)) hws hhead).2
  have hdig2 := takeWhile_dropWhile_split Char.isDigit (d :: ds') rest hdig hrest
  simp only [List.append_assoc, List.cons_append] at hdrop hdig2
  simp only [strtol10, List.append_assoc, List.cons_append]
  rw [hdrop]
  rcases hsgn with rfl | rfl | rfl
  · simp only [List.nil_append]
    simp only [show (d :: (ds' ++ rest) : List Char).head? = some d from rfl]
    rw [if_neg (show ¬((some d : Option Char) = some '-') from by simp [hd1])]
    rw [if_neg (show ¬(((some d : Option Char) = some '-') ∨
      ((some d : Option Char) = some '+')) from by simp [hd1, hd2])]
    rw [hdig2.1, hdig2.2]
    rw [if_neg (List.cons_ne_nil d ds')]
    rw [if_neg (show ¬(([] : List Char) = ['-']) from by decide)]
  · simp only [show ((['+'] ++ (d :: (ds' ++ rest))) : List Char).head? = some '+' from rfl,
      show ((['+'] ++ (d :: (ds' ++ rest))) : List Char).tail = d :: (ds' ++ rest) from rfl,
      or_true, if_true]
    rw [hdig2.1, hdig2.2]
    rw [if_neg (List.cons_ne_nil d ds')]
    rw [if_neg (show ¬((['+'] : List Char) = ['-']) from by decide)]
    rw [if_neg (show ¬((some '+' : Option Char) = some '-') from by decide)]
  · simp only [show ((['-'] ++ (d :: (ds' ++ rest))) : List Char).head? = some '-' from rfl,
      show ((['-'] ++ (d :: (ds' ++ rest))) : List Char).tail = d :: (ds' ++ rest) from rfl,
      true_or, if_true]
    rw [hdig2.1, hdig2.2]
    rw [if_neg (List.cons_ne_nil d ds')]

theorem parse_ok_of_spec (s : List Char) (v : ℤ) (h : int32TextSpec s v) :
    mathlib_parse_int (some s) true = (MATHLIB_OK, some v) := by
  obtain ⟨ws, sgn, ds, hs, hws, hsgn, hds, hdig, hv, hlo, hhi⟩ := h
  have heval := strtol10_of_split ws sgn ds [] hws hsgn hds hdig
    (by intro c hc; simp at hc)
  rw [List.append_nil] at heval
  rw [← hs, ← hv] at heval
  rw [if_neg (by omega), if_neg (by omega)] at heval
  simp only [mathlib_parse_int]
  rw [if_neg (show ¬(true = false) from by simp)]
  rw [heval]
  norm_num
  intro hout
  omega

theorem int32TextSpec_of_parse_ok (s : List Char)
    (hconv : (strtol10 s).converted = true)
    (herr : (strtol10 s).erange = false)
    (hrest : (strtol10 s).restChars = [])
    (hlo : -(2^31) ≤ (strtol10 s).value) (hhi : (strtol10 s).value ≤ 2^31 - 1) :
    int32TextSpec s ((strtol10 s).value) := by
  by_cases hsgn : (s.dropWhile cIsSpace).head? = some '-' ∨
      (s.dropWhile cIsSpace).head? = some '+'
  · obtain ⟨c, t2, hct⟩ : ∃ c t2, s.dropWhile cIsSpace = c :: t2 := by
      rcases hsgn with h | h
      · cases hd : s.dropWhile cIsSpace with
        | nil => rw [hd] at h; simp at h
        | cons a b => exact ⟨a, b, rfl⟩
      · cases hd : s.dropWhile cIsSpace with
        | nil => rw [hd] at h; simp at h
        | cons a b => exact ⟨a, b, rfl⟩
    have hc : c = '-' ∨ c = '+' := by
      rw [hct] at hsgn
      simpa using hsgn
    have hds : t2.takeWhile Char.isDigit ≠ [] := by
      intro hnil
      have hzero : strtol10 s = ⟨0, s, false, false⟩ := by
        apply strtol10_no_digits
        rw [hct]
        rw [if_pos (by rw [hct] at hsgn; exact hsgn)]
        rw [List.tail_cons]
        exact hnil
      rw [hzero] at hconv
      simp at hconv
    have hs_split := List.takeWhile_append_dropWhile cIsSpace s
    have hsplit2 := List.takeWhile_append_dropWhile Char.isDigit t2
    have hs_eq : s = s.takeWhile cIsSpace ++ [c] ++
        (t2.takeWhile Char.isDigit ++ t2.dropWhile Char.isDigit) := by
      rw [hsplit2, List.append_assoc, List.singleton_append, ← hct]
      exact hs_split.symm
    have heval := strtol10_of_split (s.takeWhile cIsSpace) [c]
      (t2.takeWhile Char.isDigit) (t2.dropWhile Char.isDigit)
      (fun x hx => List.mem_takeWhile_imp hx)
      (by rcases hc with rfl | rfl
          · right; right; rfl
          · right; left; rfl)
      hds
      (fun x hx => List.mem_takeWhile_imp hx)
      (head_dropWhile_not Char.isDigit t2)
    rw [← hs_eq] at heval
    set dv : ℤ := (if ([c] : List Char) = ['-'] then (-1 : ℤ) else 1) *
      (digitsToNat (t2.takeWhile Char.isDigit) : ℤ) with hdv
    by_cases hc1 : dv < -(2^63)
    · rw [heval, if_pos hc1] at herr
      simp at herr
    · by_cases hc2 : dv > 2^63 - 1
      · rw [heval, if_neg hc1, if_pos hc2] at herr
        simp at herr
      · have hvv : (strtol10 s).value = dv := by
          rw [heval, if_neg hc1, if_neg hc2]
        have hrr : (strtol10 s).restChars = t2.dropWhile Char.isDigit := by
          rw [heval, if_neg hc1, if_neg hc2]
        have hrest0 : t2.dropWhile Char.isDigit = [] := by
          rw [← hrr]; exact hrest
        rw [hrest0, List.append_nil] at hs_eq
        refine ⟨s.takeWhile cIsSpace, [c], t2.takeWhile Char.isDigit, hs_eq,
          fun x hx => List.mem_takeWhile_imp hx, ?_, hds,
          fun x hx => List.mem_takeWhile_imp hx, ?_, hlo, hhi⟩
        · rcases hc with rfl | rfl
          · right; right; rfl
          · right; left; rfl
        · rw [hvv, hdv]
  · have hds : (s.dropWhile cIsSpace).takeWhile Char.isDigit ≠ [] := by
      intro hnil
      have hzero : strtol10 s = ⟨0, s, false, false⟩ := by
        apply strtol10_no_digits
        rw [if_neg hsgn]
        exact hnil
      rw [hzero] at hconv
      simp at hconv
    have hs_split := List.takeWhile_append_dropWhile cIsSpace s
    have hsplit2 := List.takeWhile_append_dropWhile Char.isDigit (s.dropWhile cIsSpace)
    have hs_eq : s = s.takeWhile cIsSpace ++ [] ++
        ((s.dropWhile cIsSpace).takeWhile Char.isDigit ++
          (s.dropWhile cIsSpace).dropWhile Char.isDigit) := by
      rw [hsplit2, List.append_nil]
      exact hs_split.symm
    have heval := strtol10_of_split (s.takeWhile cIsSpace) []
      ((s.dropWhile cIsSpace).takeWhile Char.isDigit)
      ((s.dropWhile cIsSpace).dropWhile Char.isDigit)
      (fun x hx => List.mem_takeWhile_imp hx)
      (Or.inl rfl)
      hds
      (fun x hx => List.mem_takeWhile_imp hx)
      (head_dropWhile_not Char.isDigit _)
    rw [← hs_eq] at heval
    set dv : ℤ := (if ([] : List Char) = ['-'] then (-1 : ℤ) else 1) *
      (digitsToNat ((s.dropWhile cIsSpace).takeWhile Char.isDigit) : ℤ) with hdv
    by_cases hc1 : dv < -(2^63)
    · rw [heval, if_pos hc1] at herr
      simp at herr
    · by_cases hc2 : dv > 2^63 - 1
      · rw [heval, if_neg hc1, if_pos hc2] at herr
        simp at herr
      · have hvv : (strtol10 s).value = dv := by
          rw [heval, if_neg hc1, if_neg hc2]
        have hrr : (strtol10 s).restChars =
            (s.dropWhile cIsSpace).dropWhile Char.isDigit := by
          rw [heval, if_neg hc1, if_neg hc2]
        have hrest0 : (s.dropWhile cIsSpace).dropWhile Char.isDigit = [] := by
          rw [← hrr]; exact hrest
        rw [hrest0] at hs_eq
        simp only [List.append_nil] at hs_eq
        refine ⟨s.takeWhile cIsSpace, [], (s.dropWhile cIsSpace).takeWhile Char.isDigit,
          by simpa using hs_eq, fun x hx => List.mem_takeWhile_imp hx, Or.inl rfl, hds,
          fun x hx => List.mem_takeWhile_imp hx, ?_, hlo, hhi⟩
        rw [hvv, hdv]

theorem parse_result_cases (s : List Char) :
    (mathlib_parse_int (some s) true).1 = MATHLIB_ERR_RANGE ∨
    (∃ v, mathlib_parse_int (some s) true = (MATHLIB_OK, some v) ∧ int32TextSpec s v) := by
  simp only [mathlib_parse_int]
  rw [if_neg (show ¬(true = false) from by simp)]
  by_cases h1 : (strtol10 s).erange = true ∨ (strtol10 s).converted = false ∨
      (strtol10 s).restChars ≠ []
  · rw [if_pos h1]
    left
    rfl
  · rw [if_neg h1]
    by_cases h2 : (strtol10 s).value < -(2^31) ∨ (strtol10 s).value > 2^31 - 1
    · rw [if_pos h2]
      left
      rfl
    · rw [if_neg h2]
      right
      push_neg at h1 h2
      refine ⟨(strtol10 s).value, rfl,
        int32TextSpec_of_parse_ok s ?_ ?_ h1.2.2 (by omega) (by omega)⟩
      · simpa using h1.2.1
      · simpa using h1.1

/-- C4: with non-null arguments, `mathlib_parse_int` returns
`MATHLIB_ERR_RANGE` exactly when the text is not a fully-consumed, in-range
base-10 integer in the `strtol` sense (optional whitespace, optional sign,
at least one digit, nothing after the digits, value within `int32_t`);
partial parses, trailing characters, empty input and out-of-range magnitudes
are all rejected, and on an accepted text it returns `MATHLIB_OK` and writes
the parsed value. -/
theorem mathlib_parse_int_spec :
    ∀ s : List Char,
      ((mathlib_parse_int (some s) true).1 = MATHLIB_ERR_RANGE ↔
        ¬ ∃ v, int32TextSpec s v) ∧
      (∀ v, int32TextSpec s v →
        mathlib_parse_int (some s) true = (MATHLIB_OK, some v)) := by
  intro s
  constructor
  · constructor
    · rintro hr ⟨v, hv⟩
      have hok := parse_ok_of_spec s v hv
      rw [hok] at hr
      norm_num [MATHLIB_OK, MATHLIB_ERR_RANGE] at hr
    · intro hno
      rcases parse_result_cases s with h | ⟨v, -, hv⟩
      · exact h
      · exact absurd ⟨v, hv⟩ hno
  · intro v hv
    exact parse_ok_of_spec s v hv

/-- Witness for C4 at the concrete example from the specification:
parsing "42" succeeds with value 42. -/
theorem mathlib_parse_int_spec_witness :
    mathlib_parse_int (some ['4', '2']) true = (MATHLIB_OK, some 42) := by
  apply (mathlib_parse_int_spec ['4', '2']).2 42
  exact ⟨[], [], ['4', '2'], rfl, by simp, Or.inl rfl, by simp, by decide,
    by decide, by decide, by decide⟩

/-- C9: because `mathlib_parse_int` delegates to `strtol`, a leading run of
whitespace and an explicit plus sign are accepted: " 42" and "+42" both
parse to `MATHLIB_OK` with value 42, while everything after the digit run
must still be the terminator (" 42x" is rejected). -/
theorem mathlib_parse_int_accepts_space_plus :
    mathlib_parse_int (some [' ', '4', '2']) true = (MATHLIB_OK, some 42) ∧
    mathlib_parse_int (some ['+', '4', '2']) true = (MATHLIB_OK, some 42) ∧
    mathlib_parse_int (some [' ', '4', '2', 'x']) true = (MATHLIB_ERR_RANGE, none) := by
  refine ⟨by decide, by decide, by decide⟩
